import Mathlib

/-!
Verification of the asynchronous transport/decoding core of a B2 cloud-storage
client library, against its natural-language specification.

The development shallowly embeds, from the Rust sources:
  * `PartialJson` (src/b2_future/partial_json.rs and the identical copy in
    src/b2_future/b2_stream.rs): the incremental JSON element decoder;
  * the `B2Stream` response state machine (src/b2_future/b2_stream.rs);
  * the `B2Future` single-value response state machine (src/b2_future/mod.rs);
  * the single-flight authentication cache (src/source/auth_source.rs);
  * the token-bucket throttle, plain variant (src/throttle/mod.rs) and
    shared/fair variant (src/throttle/async.rs).

Modelling conventions: bytes are natural numbers below 256; Rust `u32`/`u64`/
`usize` counters are modelled as `Nat` (the code never exercises wrap-around on
the paths the claims speak about; saturating arithmetic is modelled explicitly
where the source uses it); `serde_json` deserialization is an external
collaborator and is passed in as a function `de : List Byte → Except Unit τ`;
polling of external futures/streams is modelled by scripted event lists.
-/

namespace B2

/-- Bytes of the Rust byte buffers, as natural numbers (values below 256). -/
abbrev Byte := Nat

/-- The `char::is_whitespace` test applied to a `u8` cast to `char` (so a
Latin-1 code point): the White_Space code points below 256 are
U+0009..U+000D, U+0020, U+0085 and U+00A0. -/
def isWsByte (c : Byte) : Bool :=
  c = 9 || c = 10 || c = 11 || c = 12 || c = 13 || c = 32 || c = 133 || c = 160

/-- Errors produced by the decoding core (`B2Error` in src/lib.rs), restricted
to the variants the embedded code can produce. -/
inductive B2Err where
  /-- `B2Error::api("Invalid json")`: structural error from `PartialJson`. -/
  | invalidJson
  /-- `B2Error::JsonError`: a `serde_json` deserialization failure. -/
  | jsonError
deriving Repr, DecidableEq

/-- State of the incremental JSON decoder `PartialJson<T>`
(src/b2_future/partial_json.rs lines 11-20). The `VecDeque<u8>` buffer is a
front-evictable byte queue, modelled as a list; `i` is the scan cursor. -/
structure PartialJson where
  buffer : List Byte
  parens : Nat
  level : Nat
  inString : Bool
  lastWasEscape : Bool
  lastWasStart : Bool
  i : Nat
deriving Repr, DecidableEq

namespace PartialJson

/-- `PartialJson::new(size, level)`: `size` only reserves capacity and does not
affect behaviour. -/
def new (size level : Nat) : PartialJson :=
  { buffer := [], parens := 0, level := level, inString := false,
    lastWasEscape := false, lastWasStart := false, i := 0 }

/-- `PartialJson::push`: append the chunk to the internal buffer. -/
def push (s : PartialJson) (bs : List Byte) : PartialJson :=
  { s with buffer := s.buffer ++ bs }

@[simp] theorem push_buffer (s : PartialJson) (bs : List Byte) :
    (s.push bs).buffer = s.buffer ++ bs := rfl

@[simp] theorem push_parens (s : PartialJson) (bs : List Byte) :
    (s.push bs).parens = s.parens := rfl

@[simp] theorem push_level (s : PartialJson) (bs : List Byte) :
    (s.push bs).level = s.level := rfl

@[simp] theorem push_inString (s : PartialJson) (bs : List Byte) :
    (s.push bs).inString = s.inString := rfl

@[simp] theorem push_lastWasEscape (s : PartialJson) (bs : List Byte) :
    (s.push bs).lastWasEscape = s.lastWasEscape := rfl

@[simp] theorem push_lastWasStart (s : PartialJson) (bs : List Byte) :
    (s.push bs).lastWasStart = s.lastWasStart := rfl

@[simp] theorem push_i (s : PartialJson) (bs : List Byte) :
    (s.push bs).i = s.i := rfl

/-- Number of buffered bytes not yet scanned: the loop in `PartialJson::next`
consumes exactly one of these per iteration. -/
def mu (s : PartialJson) : Nat := s.buffer.length - s.i

/-- `PartialJson::next_value` (lines 37-52): extract the span of the element
just delimited (the first `i - 1` buffered bytes), deserialize it with the
external `serde_json` deserializer `de`, then drop the first `i` bytes and
reset the cursor. The buffer is drained even when deserialization fails. -/
def nextValue (de : List Byte → Except Unit τ) (s : PartialJson) :
    Except B2Err τ × PartialJson :=
  let res := de (s.buffer.take (s.i - 1))
  let s2 : PartialJson := { s with buffer := s.buffer.drop s.i, i := 0 }
  (match res with
   | .ok v => .ok v
   | .error _ => .error .jsonError, s2)

/-- The front half of one loop iteration of `PartialJson::next` (lines 59-63):
a byte below the target level is evicted from the front of the buffer,
otherwise the cursor advances past it. -/
def advance (s : PartialJson) : PartialJson :=
  if s.parens < s.level then { s with buffer := s.buffer.tail }
  else { s with i := s.i + 1 }

/-- Outcome of one loop iteration of `PartialJson::next`. -/
inductive StepRes where
  /-- Keep scanning. -/
  | cont
  /-- An element span is complete: return `next_value`. -/
  | emit
  /-- Structural error: a close bracket at depth zero. -/
  | fail
deriving Repr, DecidableEq

/-- The state-update half of one loop iteration of `PartialJson::next`
(lines 64-118), acting on the already-advanced state; `c` is the byte that was
read at the cursor before advancing. -/
def stepByte (c : Byte) (s : PartialJson) : PartialJson × StepRes :=
  if s.inString then
    if s.lastWasEscape then ({ s with lastWasEscape := false }, .cont)
    else if c = 34 then ({ s with inString := false }, .cont)
    else if c = 92 then ({ s with lastWasEscape := true }, .cont)
    else (s, .cont)
  else if c = 91 ∨ c = 123 then
    ({ s with parens := s.parens + 1,
              lastWasStart := decide (s.parens + 1 = s.level) }, .cont)
  else if c = 44 then
    if s.parens = s.level then ({ s with lastWasStart := false }, .emit)
    else ({ s with lastWasStart := false }, .cont)
  else if c = 34 then
    ({ s with lastWasStart := false, inString := true }, .cont)
  else if c = 93 ∨ c = 125 then
    if s.parens = 0 then (s, .fail)
    else if s.parens - 1 = s.level - 1 ∧ s.lastWasStart = false then
      ({ s with parens := s.parens - 1 }, .emit)
    else ({ s with parens := s.parens - 1, lastWasStart := false }, .cont)
  else if isWsByte c then (s, .cont)
  else ({ s with lastWasStart := false }, .cont)

/-- One full loop iteration of `PartialJson::next`, defined when the cursor is
inside the buffer: read the byte at the cursor, advance, update state. -/
def step (s : PartialJson) : PartialJson × StepRes :=
  stepByte (s.buffer.getD s.i 0) (advance s)

/-- Fuelled form of `PartialJson::next` (lines 53-120). With `fuel ≥ mu s`
this computes the Rust loop exactly: each iteration consumes one unscanned
byte, and the loop returns `None` precisely when the cursor reaches the end of
the buffer. -/
def nextF (de : List Byte → Except Unit τ) :
    Nat → PartialJson → Except B2Err (Option τ) × PartialJson
  | 0, s => (.ok none, s)
  | fuel + 1, s =>
    if s.i < s.buffer.length then
      match step s with
      | (s1, .cont) => nextF de fuel s1
      | (s1, .emit) =>
        match nextValue de s1 with
        | (.ok v, s2) => (.ok (some v), s2)
        | (.error e, s2) => (.error e, s2)
      | (s1, .fail) => (.error .invalidJson, s1)
    else (.ok none, s)

/-- `PartialJson::next`: scan buffered bytes until one element is delimited
(`Ok(Some _)`), the buffer is exhausted (`Ok(None)`), or a structural or
deserialization error occurs. -/
def next (de : List Byte → Except Unit τ) (s : PartialJson) :
    Except B2Err (Option τ) × PartialJson :=
  nextF de s.mu s

/-- Fuelled repetition of `next`: collect the results of repeated `next` calls
(elements and errors, in order) until a call returns `Ok(None)`. -/
def drainF (de : List Byte → Except Unit τ) :
    Nat → PartialJson → List (Except B2Err τ) × PartialJson
  | 0, s => ([], s)
  | fuel + 1, s =>
    match next de s with
    | (.ok none, s1) => ([], s1)
    | (.ok (some v), s1) => let r := drainF de fuel s1; (.ok v :: r.1, r.2)
    | (.error e, s1) => let r := drainF de fuel s1; (.error e :: r.1, r.2)

/-- Call `next` repeatedly, collecting every produced element and error, until
it returns `Ok(None)`; `mu s` calls always suffice because every productive
`next` call consumes at least one unscanned byte. -/
def drain (de : List Byte → Except Unit τ) (s : PartialJson) :
    List (Except B2Err τ) × PartialJson :=
  drainF de s.mu s

theorem stepByte_buffer (c : Byte) (s : PartialJson) :
    ((stepByte c s).1).buffer = s.buffer := by
  unfold stepByte
  repeat' split
  all_goals rfl

theorem stepByte_i (c : Byte) (s : PartialJson) :
    ((stepByte c s).1).i = s.i := by
  unfold stepByte
  repeat' split
  all_goals rfl

theorem advance_buffer_length (s : PartialJson) (h : s.i < s.buffer.length) :
    (advance s).buffer.length = s.buffer.length - 1 ∨
      ((advance s).buffer.length = s.buffer.length ∧ (advance s).i = s.i + 1) := by
  unfold advance
  split
  · exact Or.inl (by simp)
  · exact Or.inr ⟨rfl, rfl⟩

theorem advance_i (s : PartialJson) :
    (advance s).i = s.i ∨ (advance s).i = s.i + 1 := by
  unfold advance
  split
  · exact Or.inl rfl
  · exact Or.inr rfl

theorem step_mu (s : PartialJson) (h : s.i < s.buffer.length) :
    ((step s).1).mu = s.mu - 1 := by
  unfold step mu
  rw [stepByte_buffer, stepByte_i]
  unfold advance
  split
  · simp only []
    have : s.buffer.tail.length = s.buffer.length - 1 := by simp
    rw [this]
    omega
  · simp only []
    omega

theorem step_i_le (s : PartialJson) (h : s.i < s.buffer.length) :
    ((step s).1).i ≤ ((step s).1).buffer.length := by
  unfold step
  rw [stepByte_buffer, stepByte_i]
  unfold advance
  split
  · simp only []
    have : s.buffer.tail.length = s.buffer.length - 1 := by simp
    rw [this]
    omega
  · simp only []
    omega

theorem next_of_ge (de : List Byte → Except Unit τ) (s : PartialJson)
    (h : s.buffer.length ≤ s.i) : next de s = (.ok none, s) := by
  have hmu : s.mu = 0 := by unfold mu; omega
  rw [next, hmu]
  rfl

theorem next_of_lt (de : List Byte → Except Unit τ) (s : PartialJson)
    (h : s.i < s.buffer.length) :
    next de s =
      (match step s with
       | (s1, .cont) => next de s1
       | (s1, .emit) =>
         (match nextValue de s1 with
          | (.ok v, s2) => (.ok (some v), s2)
          | (.error e, s2) => (.error e, s2))
       | (s1, .fail) => (.error .invalidJson, s1)) := by
  have hmu : s.mu = (s.mu - 1) + 1 := by unfold mu; omega
  conv_lhs => rw [next, hmu]
  rw [nextF]
  simp only [h, if_true]
  rcases hstep : step s with ⟨s1, r⟩
  have hs1 : s1.mu = s.mu - 1 := by
    have := step_mu s h
    rw [hstep] at this
    exact this
  cases r
  · simp only [next, hs1]
  · rfl
  · rfl

theorem advance_push (s : PartialJson) (bs : List Byte)
    (h : s.i < s.buffer.length) :
    advance (s.push bs) = (advance s).push bs := by
  unfold advance
  simp only [push_parens, push_level]
  split
  · rcases hb : s.buffer with _ | ⟨a, t⟩
    · rw [hb] at h
      simp at h
    · simp [push, hb]
  · rfl

theorem stepByte_push (c : Byte) (t : PartialJson) (bs : List Byte) :
    stepByte c (t.push bs) = (((stepByte c t).1).push bs, (stepByte c t).2) := by
  unfold stepByte
  simp only [push_inString, push_lastWasEscape, push_parens, push_level,
    push_lastWasStart]
  repeat' split
  all_goals rfl

theorem step_push (s : PartialJson) (bs : List Byte)
    (h : s.i < s.buffer.length) :
    step (s.push bs) = (((step s).1).push bs, (step s).2) := by
  unfold step
  rw [push_i, push_buffer, List.getD_append _ _ _ _ h, advance_push s bs h,
    stepByte_push]

theorem nextValue_snd (de : List Byte → Except Unit τ) (s : PartialJson) :
    (nextValue de s).2 = { s with buffer := s.buffer.drop s.i, i := 0 } := rfl

theorem nextValue_push (de : List Byte → Except Unit τ) (s : PartialJson)
    (bs : List Byte) (h : s.i ≤ s.buffer.length) :
    nextValue de (s.push bs) =
      ((nextValue de s).1, ((nextValue de s).2).push bs) := by
  unfold nextValue
  simp only [push_buffer, push_i]
  rw [List.take_append_of_le_length (by omega),
    List.drop_append_of_le_length h]
  rfl

theorem next_push (de : List Byte → Except Unit τ) (s : PartialJson)
    (bs : List Byte) :
    next de (s.push bs) =
      (match next de s with
       | (.ok none, s0) => next de (s0.push bs)
       | (.ok (some v), s1) => (.ok (some v), s1.push bs)
       | (.error e, s1) => (.error e, s1.push bs)) := by
  suffices h : ∀ fuel s, mu s ≤ fuel →
      next de (s.push bs) =
        (match next de s with
         | (.ok none, s0) => next de (s0.push bs)
         | (.ok (some v), s1) => (.ok (some v), s1.push bs)
         | (.error e, s1) => (.error e, s1.push bs)) by
    exact h s.mu s le_rfl
  intro fuel
  induction fuel with
  | zero =>
    intro s hle
    have hge : s.buffer.length ≤ s.i := by unfold mu at hle; omega
    rw [next_of_ge de s hge]
  | succ fuel ih =>
    intro s hle
    by_cases h : s.i < s.buffer.length
    · have hpl : (s.push bs).i < (s.push bs).buffer.length := by
        simp only [push_i, push_buffer, List.length_append]
        omega
      rw [next_of_lt de (s.push bs) hpl, next_of_lt de s h, step_push s bs h]
      rcases hstep : step s with ⟨s1, r⟩
      have hmus1 : s1.mu ≤ fuel := by
        have := step_mu s h
        rw [hstep] at this
        dsimp only at this
        omega
      cases r with
      | cont =>
        simp only []
        exact ih s1 hmus1
      | emit =>
        simp only []
        have hile : s1.i ≤ s1.buffer.length := by
          have := step_i_le s h
          rw [hstep] at this
          exact this
        rw [nextValue_push de s1 bs hile]
        rcases hnv : nextValue de s1 with ⟨res, s2⟩
        cases res <;> rfl
      | fail => rfl
    · rw [next_of_ge de s (by omega)]

theorem next_mu (de : List Byte → Except Unit τ) (s : PartialJson) :
    (next de s).1 = .ok none ∨ ((next de s).2).mu < s.mu := by
  suffices h : ∀ fuel s, mu s ≤ fuel →
      (next de s).1 = Except.ok none ∨ ((next de s).2).mu < mu s by
    exact h s.mu s le_rfl
  intro fuel
  induction fuel with
  | zero =>
    intro s hle
    have hge : s.buffer.length ≤ s.i := by unfold mu at hle; omega
    rw [next_of_ge de s hge]
    exact Or.inl rfl
  | succ fuel ih =>
    intro s hle
    by_cases h : s.i < s.buffer.length
    · have hmupos : 0 < s.mu := by unfold mu; omega
      rw [next_of_lt de s h]
      rcases hstep : step s with ⟨s1, r⟩
      have hmus1 : s1.mu = s.mu - 1 := by
        have := step_mu s h
        rw [hstep] at this
        exact this
      cases r with
      | cont =>
        simp only []
        rcases ih s1 (by omega) with h1 | h1
        · exact Or.inl h1
        · exact Or.inr (by omega)
      | emit =>
        simp only []
        rcases hnv : nextValue de s1 with ⟨res, s2⟩
        have hs2 : s2.mu ≤ s1.mu := by
          have heq := nextValue_snd de s1
          rw [hnv] at heq
          dsimp only at heq
          rw [heq]
          unfold mu
          simp only [List.length_drop]
          omega
        cases res with
        | ok v => exact Or.inr (by simp only []; omega)
        | error e => exact Or.inr (by simp only []; omega)
      | fail =>
        simp only []
        exact Or.inr (by omega)
    · rw [next_of_ge de s (by omega)]
      exact Or.inl rfl

theorem drainF_mono (de : List Byte → Except Unit τ) :
    ∀ f1 f2 s, mu s ≤ f1 → mu s ≤ f2 → drainF de f1 s = drainF de f2 s := by
  intro f1
  induction f1 with
  | zero =>
    intro f2 s h1 h2
    have hnone : next de s = (.ok none, s) :=
      next_of_ge de s (by unfold mu at h1; omega)
    cases f2 with
    | zero => rfl
    | succ g =>
      conv_rhs => rw [drainF]
      rw [hnone]
      rfl
  | succ f ih =>
    intro f2 s h1 h2
    by_cases hlt : s.i < s.buffer.length
    · obtain ⟨g, rfl⟩ : ∃ g, f2 = g + 1 :=
        ⟨f2 - 1, by unfold mu at h2; omega⟩
      rw [drainF, drainF]
      rcases hnx : next de s with ⟨r, s1⟩
      have hr := next_mu de s
      rw [hnx] at hr
      dsimp only at hr
      cases r with
      | ok o =>
        cases o with
        | none => rfl
        | some v =>
          have hm : s1.mu < s.mu := by
            rcases hr with h | h
            · exact absurd h (by simp)
            · exact h
          simp only []
          rw [ih g s1 (by omega) (by omega)]
      | error e =>
        have hm : s1.mu < s.mu := by
          rcases hr with h | h
          · exact absurd h (by simp)
          · exact h
        simp only []
        rw [ih g s1 (by omega) (by omega)]
    · have hnone : next de s = (.ok none, s) := next_of_ge de s (by omega)
      cases f2 with
      | zero =>
        conv_lhs => rw [drainF]
        rw [hnone]
        rfl
      | succ g =>
        conv_lhs => rw [drainF]
        conv_rhs => rw [drainF]
        rw [hnone]

theorem drain_step (de : List Byte → Except Unit τ) (s : PartialJson) :
    drain de s =
      (match next de s with
       | (.ok none, s1) => ([], s1)
       | (.ok (some v), s1) =>
         ((Except.ok v) :: (drain de s1).1, (drain de s1).2)
       | (.error e, s1) =>
         ((Except.error e) :: (drain de s1).1, (drain de s1).2)) := by
  by_cases h : s.i < s.buffer.length
  · have hmu : s.mu = (s.mu - 1) + 1 := by unfold mu; omega
    conv_lhs => rw [drain, hmu]
    rw [drainF]
    rcases hnx : next de s with ⟨r, s1⟩
    have hr := next_mu de s
    rw [hnx] at hr
    dsimp only at hr
    cases r with
    | ok o =>
      cases o with
      | none => rfl
      | some v =>
        have hm : s1.mu < s.mu := by
          rcases hr with h1 | h1
          · exact absurd h1 (by simp)
          · exact h1
        simp only []
        rw [drainF_mono de (s.mu - 1) s1.mu s1 (by omega) le_rfl]
        rfl
    | error e =>
      have hm : s1.mu < s.mu := by
        rcases hr with h1 | h1
        · exact absurd h1 (by simp)
        · exact h1
      simp only []
      rw [drainF_mono de (s.mu - 1) s1.mu s1 (by omega) le_rfl]
      rfl
  · have hnone : next de s = (.ok none, s) := next_of_ge de s (by omega)
    have hmu : s.mu = 0 := by unfold mu; omega
    rw [drain, hmu, hnone]
    rfl

theorem drain_congr (de : List Byte → Except Unit τ) (x y : PartialJson)
    (h : next de x = next de y) : drain de x = drain de y := by
  rw [drain_step de x, drain_step de y, h]

theorem push_push (s : PartialJson) (a b : List Byte) :
    (s.push a).push b = s.push (a ++ b) := by
  unfold push
  rw [List.append_assoc]

theorem push_nil (s : PartialJson) : s.push [] = s := by
  unfold push
  rw [List.append_nil]

end PartialJson

/-- One operation of an arbitrary caller interaction with `PartialJson`:
either a `push` of a chunk or a call to `next`. -/
inductive PJOp where
  | push (bs : List Byte)
  | next
deriving Repr

namespace PartialJson

/-- Execute an arbitrary interleaving of `push` and `next` calls, collecting
every element and error produced by the `next` calls, in order. -/
def exec (de : List Byte → Except Unit τ) :
    PartialJson → List PJOp → List (Except B2Err τ) × PartialJson
  | s, [] => ([], s)
  | s, PJOp.push bs :: t => exec de (s.push bs) t
  | s, PJOp.next :: t =>
    match next de s with
    | (.ok none, s1) => exec de s1 t
    | (.ok (some v), s1) =>
      let r := exec de s1 t
      ((Except.ok v) :: r.1, r.2)
    | (.error e, s1) =>
      let r := exec de s1 t
      ((Except.error e) :: r.1, r.2)

/-- The concatenation of all chunks pushed by a list of operations. -/
def pushedBytes : List PJOp → List Byte
  | [] => []
  | PJOp.push bs :: t => bs ++ pushedBytes t
  | PJOp.next :: t => pushedBytes t

theorem exec_drain (de : List Byte → Except Unit τ) :
    ∀ (ops : List PJOp) (s : PartialJson),
      (exec de s ops).1 ++ (drain de (exec de s ops).2).1
          = (drain de (s.push (pushedBytes ops))).1 ∧
        (drain de (exec de s ops).2).2
          = (drain de (s.push (pushedBytes ops))).2 := by
  intro ops
  induction ops with
  | nil =>
    intro s
    rw [pushedBytes, push_nil]
    exact ⟨by simp [exec], by simp [exec]⟩
  | cons op t ih =>
    intro s
    cases op with
    | push bs =>
      have h := ih (s.push bs)
      rw [push_push] at h
      exact h
    | next =>
      rcases hnx : next de s with ⟨r, s1⟩
      have hpush := next_push de s (pushedBytes t)
      rw [hnx] at hpush
      cases r with
      | ok o =>
        cases o with
        | none =>
          have hgoal : exec de s (PJOp.next :: t) = exec de s1 t := by
            rw [exec, hnx]
          rw [hgoal, pushedBytes]
          have hcongr : drain de (s.push (pushedBytes t))
              = drain de (s1.push (pushedBytes t)) :=
            drain_congr de _ _ hpush
          rw [hcongr]
          exact ih s1
        | some v =>
          have hgoal : exec de s (PJOp.next :: t)
              = ((Except.ok v) :: (exec de s1 t).1, (exec de s1 t).2) := by
            rw [exec, hnx]
          rw [hgoal, pushedBytes]
          have hrhs : drain de (s.push (pushedBytes t))
              = ((Except.ok v) :: (drain de (s1.push (pushedBytes t))).1,
                  (drain de (s1.push (pushedBytes t))).2) := by
            rw [drain_step de (s.push (pushedBytes t)), hpush]
          rw [hrhs]
          obtain ⟨ih1, ih2⟩ := ih s1
          exact ⟨by rw [List.cons_append, ih1], by rw [ih2]⟩
      | error e =>
        have hgoal : exec de s (PJOp.next :: t)
            = ((Except.error e) :: (exec de s1 t).1, (exec de s1 t).2) := by
          rw [exec, hnx]
        rw [hgoal, pushedBytes]
        have hrhs : drain de (s.push (pushedBytes t))
            = ((Except.error e) :: (drain de (s1.push (pushedBytes t))).1,
                (drain de (s1.push (pushedBytes t))).2) := by
          rw [drain_step de (s.push (pushedBytes t)), hpush]
        rw [hrhs]
        obtain ⟨ih1, ih2⟩ := ih s1
        exact ⟨by rw [List.cons_append, ih1], by rw [ih2]⟩

end PartialJson

/-- A trivial element deserializer that returns the raw byte span; with it the
decoder yields exactly the element spans it delimits. -/
def deSpan : List Byte → Except Unit (List Byte) := fun bs => .ok bs

/-- Model of `serde_json::from_slice::<u32>` on the numeric spans occurring in
the concrete inputs of the spec: parse a nonempty string of ASCII digits,
optionally surrounded by JSON whitespace. -/
def deNat (bs : List Byte) : Except Unit Nat :=
  let core := (bs.dropWhile (fun c => isWsByte c)).reverse.dropWhile
    (fun c => isWsByte c) |>.reverse
  if core ≠ [] ∧ core.all (fun c => 48 ≤ c ∧ c ≤ 57) then
    .ok (core.foldl (fun acc c => 10 * acc + (c - 48)) 0)
  else .error ()

/-- Claim C1: for every byte sequence, every target level, every element
deserializer, and every way of splitting the bytes into a succession of `push`
calls with `next` calls interleaved arbitrarily, the sequence of results the
decoder produces (the interleaved `next` calls followed by a final drain)
is identical to the sequence obtained by pushing the whole body in one chunk
and draining `next`. In particular, on a valid JSON array body (where no error
event occurs) the decoded element sequences are identical. -/
theorem partialJson_concatenation_invariance {τ : Type}
    (de : List Byte → Except Unit τ) (size level : Nat) (ops : List PJOp) :
    (PartialJson.exec de (PartialJson.new size level) ops).1 ++
        (PartialJson.drain de
          (PartialJson.exec de (PartialJson.new size level) ops).2).1
      = (PartialJson.drain de
          ((PartialJson.new size level).push (PartialJson.pushedBytes ops))).1 :=
  (PartialJson.exec_drain de ops (PartialJson.new size level)).1

/-- Claim C8: a closing bracket `]` (byte 93) or `}` (byte 125) scanned outside
a string while the tracked nesting depth `parens` is zero makes `next` return
the structural `DecodeError` (`B2Error::api("Invalid json")`) without touching
the depth counter (so no underflow) and without returning an element; and on
the single-byte input `"]"` the whole drain yields exactly one `DecodeError`
and no elements, at every level. -/
theorem partialJson_close_bracket_at_depth_zero {τ : Type}
    (de : List Byte → Except Unit τ) :
    (∀ s : PartialJson, s.parens = 0 → s.inString = false →
      s.i < s.buffer.length →
      (s.buffer.getD s.i 0 = 93 ∨ s.buffer.getD s.i 0 = 125) →
      PartialJson.next de s
        = (.error .invalidJson, PartialJson.advance s)) ∧
    (∀ size level : Nat,
      (PartialJson.drain de ((PartialJson.new size level).push [93])).1
        = [.error .invalidJson]) := by
  have hone : ∀ s : PartialJson, s.parens = 0 → s.inString = false →
      s.i < s.buffer.length →
      (s.buffer.getD s.i 0 = 93 ∨ s.buffer.getD s.i 0 = 125) →
      PartialJson.next de s = (.error .invalidJson, PartialJson.advance s) := by
    intro s hp hstr hlt hc
    rw [PartialJson.next_of_lt de s hlt]
    have hadv : (PartialJson.advance s).inString = false
        ∧ (PartialJson.advance s).parens = 0 := by
      unfold PartialJson.advance
      split
      · exact ⟨hstr, hp⟩
      · exact ⟨hstr, hp⟩
    have hstep : PartialJson.step s = (PartialJson.advance s, .fail) := by
      unfold PartialJson.step
      rcases hc with hc | hc
      all_goals rw [hc]
      all_goals unfold PartialJson.stepByte
      all_goals rw [hadv.1, hadv.2]
      all_goals simp
    rw [hstep]
  refine ⟨hone, ?_⟩
  intro size level
  set s0 : PartialJson := (PartialJson.new size level).push [93] with hs0
  have h1 : PartialJson.next de s0 = (.error .invalidJson, PartialJson.advance s0) := by
    apply hone
    · rfl
    · rfl
    · show 0 < 1
      omega
    · exact Or.inl rfl
  rw [PartialJson.drain_step de s0, h1]
  have h2 : PartialJson.next de (PartialJson.advance s0)
      = (.ok none, PartialJson.advance s0) := by
    apply PartialJson.next_of_ge
    unfold PartialJson.advance
    split
    · show ([93] : List Byte).tail.length ≤ 0
      simp
    · show ([93] : List Byte).length ≤ 0 + 1
      simp
  show Except.error B2Err.invalidJson ::
      (PartialJson.drain de (PartialJson.advance s0)).1
    = [Except.error B2Err.invalidJson]
  rw [PartialJson.drain_step de (PartialJson.advance s0), h2]

/-- Witness for C8: the general bracket-at-depth-zero clause applied at the
concrete one-byte buffer `"]"` with level 1. -/
theorem partialJson_close_bracket_at_depth_zero_witness :
    PartialJson.next deNat
        { buffer := [93], parens := 0, level := 1, inString := false,
          lastWasEscape := false, lastWasStart := false, i := 0 }
      = (.error .invalidJson,
          PartialJson.advance
            { buffer := [93], parens := 0, level := 1, inString := false,
              lastWasEscape := false, lastWasStart := false, i := 0 }) :=
  (partialJson_close_bracket_at_depth_zero deNat).1 _ rfl rfl
    (by decide) (Or.inl rfl)

/-- Claim C9: with level 1 the decoder on `"[1,2,3,4,5]"` yields exactly the
elements 1,2,3,4,5 in order; with level 2 the decoder on
`"{list: [1,2,3,4,5]}"` yields the same sequence (the wrapper key `list` is
skipped without validation); and with level 2 the input consisting of the six
bytes of an empty wrapped container (open brace, open bracket, space, newline,
close bracket, close brace) yields zero elements. The numeric spans are
deserialized by the `serde_json` model `deNat`. -/
theorem partialJson_concrete_decodings :
    (PartialJson.drain deNat
        ((PartialJson.new 100 1).push
          [91, 49, 44, 50, 44, 51, 44, 52, 44, 53, 93])).1
        = [.ok 1, .ok 2, .ok 3, .ok 4, .ok 5] ∧
      (PartialJson.drain deNat
        ((PartialJson.new 100 2).push
          [123, 108, 105, 115, 116, 58, 32,
           91, 49, 44, 50, 44, 51, 44, 52, 44, 53, 93, 125])).1
        = [.ok 1, .ok 2, .ok 3, .ok 4, .ok 5] ∧
      (PartialJson.drain deNat
        ((PartialJson.new 0 2).push [123, 91, 32, 10, 93, 125])).1 = [] :=
  ⟨by rfl, by rfl, by rfl⟩

/-! ## Response lifecycle decoders

The `B2Stream` state machine (src/b2_future/b2_stream.rs) and the `B2Future`
state machine (src/b2_future/mod.rs). The external hyper `ResponseFuture` and
`Body` are modelled by scripts: lists of the events successive polls produce.
An exhausted body script behaves as end-of-data. -/

/-- One poll result of a hyper `Body` (the response byte source). -/
inductive BodyEvt where
  | notReady
  | chunk (bs : List Byte)
  | eof
  | fail (e : Nat)
deriving Repr, DecidableEq

/-- A scripted `Body`: the events its successive polls produce. -/
abbrev Body := List BodyEvt

/-- Poll the scripted body once. -/
def bodyPoll : Body → BodyEvt × Body
  | [] => (.eof, [])
  | e :: t => (e, t)

/-- One poll result of a hyper `ResponseFuture` (the pending exchange): it
yields a head (status and the body source) or a transport error. -/
inductive ConnEvt where
  | notReady
  | ready (status : Nat) (body : Body)
  | fail (e : Nat)
deriving Repr, DecidableEq

/-- A scripted `ResponseFuture`. -/
abbrev RespFut := List ConnEvt

/-- Poll the scripted response future once; an exhausted script pends. -/
def respPoll : RespFut → ConnEvt × RespFut
  | [] => (.notReady, [])
  | e :: t => (e, t)

/-- The errors a response decoder can resolve with (`B2Error` in src/lib.rs):
a transport error forwarded from hyper (`HyperError`), a decode error
(`JsonError` / `ApiInconsistency`), or a structured remote error
(`B2Error(status, message)` with message payload of type `ε`). -/
inductive B2ErrorM (ε : Type) where
  | transport (e : Nat)
  | decode (e : B2Err)
  | api (status : Nat) (msg : ε)
deriving Repr, DecidableEq

/-- States of the streaming decoder `B2Stream<T>`
(src/b2_future/b2_stream.rs lines 23-29). -/
inductive StreamState (ε : Type) where
  | connecting (fut : RespFut)
  | collecting (body : Body) (pj : PartialJson)
  | collectingError (status : Nat) (body : Body) (acc : List Byte)
  | failImmediately (e : B2ErrorM ε)
  | done
deriving Repr, DecidableEq

/-- One stream poll outcome handed to the caller. -/
inductive StreamPoll (τ ε : Type) where
  | notReady
  | item (v : τ)
  | endOfStream
  | failure (e : B2ErrorM ε)
  /-- Polling a finished stream panics (`State::Done` arm). -/
  | panicked
deriving Repr, DecidableEq

/-- The action returned by one step of `State::poll`: either a final poll
result or the instruction to run the state machine again. -/
inductive StreamAction (τ ε : Type) where
  | done (r : StreamPoll τ ε)
  | again
deriving Repr, DecidableEq

/-- One step of `B2Stream`'s `State::poll` (src/b2_future/b2_stream.rs lines
94-181). `de` deserializes one element, `deE` deserializes an error body,
`cap`/`level` are the constructor arguments of the `PartialJson` created when
a success status arrives. -/
def streamStatePoll {τ ε : Type} (de : List Byte → Except Unit τ)
    (deE : List Byte → Except Unit ε) (cap level : Nat) :
    StreamState ε → StreamState ε × StreamAction τ ε
  | .connecting fut =>
    match respPoll fut with
    | (.notReady, fut2) => (.connecting fut2, .done .notReady)
    | (.ready status body, _) =>
      if status = 200 then
        (.collecting body (PartialJson.new cap level), .again)
      else (.collectingError status body [], .again)
    | (.fail e, _) => (.done, .done (.failure (.transport e)))
  | .collecting body pj =>
    match PartialJson.next de pj with
    | (.ok (some v), pj2) => (.collecting body pj2, .done (.item v))
    | (.ok none, pj2) =>
      match bodyPoll body with
      | (.notReady, body2) => (.collecting body2 pj2, .done .notReady)
      | (.chunk bs, body2) => (.collecting body2 (pj2.push bs), .again)
      | (.eof, _) => (.done, .done .endOfStream)
      | (.fail e, _) => (.done, .done (.failure (.transport e)))
    | (.error e, _) => (.done, .done (.failure (.decode e)))
  | .collectingError status body acc =>
    match bodyPoll body with
    | (.notReady, body2) => (.collectingError status body2 acc, .done .notReady)
    | (.chunk bs, body2) => (.collectingError status body2 (acc ++ bs), .again)
    | (.eof, _) =>
      match deE acc with
      | .ok msg => (.done, .done (.failure (.api status msg)))
      | .error _ => (.done, .done (.failure (.decode .jsonError)))
    | (.fail e, _) => (.done, .done (.failure (.transport e)))
  | .failImmediately e => (.done, .done (.failure e))
  | .done => (.done, .done .panicked)

/-- Claim C10: when the streaming decoder reaches end-of-data on a
success-status body while the incremental decoder still holds buffered bytes
of an incomplete element (`next` returns `Ok(None)` with a nonempty buffer),
the poll yields end-of-stream and moves to `Done`, discarding the buffered
bytes, and no `DecodeError` is reported. -/
theorem b2Stream_truncated_body_ends_cleanly {τ ε : Type}
    (de : List Byte → Except Unit τ) (deE : List Byte → Except Unit ε)
    (cap level : Nat) (pj : PartialJson) (body : Body) (rest : Body)
    (hnext : (PartialJson.next de pj).1 = .ok none)
    (hbuf : pj.buffer ≠ [])
    (heof : bodyPoll body = (.eof, rest)) :
    streamStatePoll de deE cap level (StreamState.collecting body pj)
      = (StreamState.done, .done .endOfStream) := by
  rcases hnx : PartialJson.next de pj with ⟨r, pj2⟩
  rw [hnx] at hnext
  dsimp only at hnext
  subst hnext
  show (match PartialJson.next de pj with
    | (.ok (some v), pj2) =>
        (StreamState.collecting body pj2, StreamAction.done (.item v))
    | (.ok none, pj2) =>
      (match bodyPoll body with
       | (.notReady, body2) =>
           (StreamState.collecting body2 pj2, StreamAction.done .notReady)
       | (.chunk bs, body2) =>
           (StreamState.collecting body2 (pj2.push bs), StreamAction.again)
       | (.eof, _) => (StreamState.done, StreamAction.done .endOfStream)
       | (.fail e, _) =>
           (StreamState.done, StreamAction.done (.failure (.transport e))))
    | (.error e, _) =>
        (StreamState.done, StreamAction.done (.failure (.decode e))))
    = (StreamState.done, StreamAction.done .endOfStream)
  rw [hnx, heof]

/-- Witness for C10: the decoder state left behind by the truncated level-1
body `"[1,2"` (element 1 was emitted; the bytes of the incomplete element 2
are still buffered) together with a body source at end-of-data. -/
theorem b2Stream_truncated_body_ends_cleanly_witness :
    streamStatePoll deNat deNat 0 1
        (StreamState.collecting []
          (PartialJson.drain deNat
            ((PartialJson.new 0 1).push [91, 49, 44, 50])).2)
      = (StreamState.done, .done (StreamPoll.endOfStream (ε := Nat))) :=
  b2Stream_truncated_body_ends_cleanly deNat deNat 0 1 _ [] []
    (by rfl) (by decide) rfl

/-- States of the single-value decoder `B2Future<T>`
(src/b2_future/mod.rs lines 28-33). `Collecting` keeps the response status
(from `Parts`) and the accumulated body bytes. -/
inductive FutState (ε : Type) where
  | connecting (fut : RespFut)
  | collecting (status : Nat) (body : Body) (acc : List Byte)
  | failImmediately (e : B2ErrorM ε)
  | done
deriving Repr, DecidableEq

/-- One future poll outcome handed to the caller. -/
inductive FutPoll (τ ε : Type) where
  | pending
  | ready (r : Except (B2ErrorM ε) τ)
  /-- Polling a finished future panics (`State::Done` arm). -/
  | panicked
deriving Repr

/-- One step of `B2Future`'s `State::poll` (src/b2_future/mod.rs lines
94-151): `none` means the state machine advanced and must be polled again
(the `None` return of the Rust method); `some` is the final poll result.
`deT` is `serde_json::from_slice::<T>` and `deE` is
`serde_json::from_slice` at the structured API-error type. -/
def futureStatePoll {τ ε : Type} (deT : List Byte → Except Unit τ)
    (deE : List Byte → Except Unit ε) :
    FutState ε → FutState ε × Option (FutPoll τ ε)
  | .connecting fut =>
    match respPoll fut with
    | (.notReady, fut2) => (.connecting fut2, some .pending)
    | (.ready status body, _) => (.collecting status body [], none)
    | (.fail e, _) => (.done, some (.ready (.error (.transport e))))
  | .collecting status body acc =>
    match bodyPoll body with
    | (.notReady, body2) => (.collecting status body2 acc, some .pending)
    | (.chunk bs, body2) => (.collecting status body2 (acc ++ bs), none)
    | (.eof, _) =>
      if status = 200 then
        match deT acc with
        | .ok t => (.done, some (.ready (.ok t)))
        | .error _ => (.done, some (.ready (.error (.decode .jsonError))))
      else
        match deE acc with
        | .ok m => (.done, some (.ready (.error (.api status m))))
        | .error _ => (.done, some (.ready (.error (.decode .jsonError))))
    | (.fail e, _) => (.done, some (.ready (.error (.transport e))))
  | .failImmediately e => (.done, some (.ready (.error e)))
  | .done => (.done, some .panicked)

/-- Claim C6: in the single-value decoder, (1) a transport error from the
pending exchange resolves the future with that transport error; (2) a
transport error from the body source likewise; (3) at end-of-data with the
success status 200 the accumulated body is deserialized into `T`, a
deserialization failure resolving with a `DecodeError`; (4) at end-of-data
with a non-success status the body is deserialized into the structured
API-error value and the future resolves with an `ApiError` carrying the
response status and that value (again with a `DecodeError` when the error
body is malformed). -/
theorem b2Future_resolution {τ ε : Type} (deT : List Byte → Except Unit τ)
    (deE : List Byte → Except Unit ε) :
    (∀ (e : Nat) (rest : RespFut),
      futureStatePoll deT deE (FutState.connecting (ConnEvt.fail e :: rest))
        = (FutState.done, some (.ready (.error (.transport e))))) ∧
    (∀ (status : Nat) (acc : List Byte) (e : Nat) (rest : Body),
      futureStatePoll deT deE
          (FutState.collecting status (BodyEvt.fail e :: rest) acc)
        = (FutState.done, some (.ready (.error (.transport e))))) ∧
    (∀ (acc : List Byte) (rest : Body),
      futureStatePoll deT deE
          (FutState.collecting 200 (BodyEvt.eof :: rest) acc)
        = (FutState.done, some (.ready
            (match deT acc with
             | .ok t => .ok t
             | .error _ => .error (.decode .jsonError))))) ∧
    (∀ (status : Nat) (acc : List Byte) (rest : Body), status ≠ 200 →
      futureStatePoll deT deE
          (FutState.collecting status (BodyEvt.eof :: rest) acc)
        = (FutState.done, some (.ready (.error
            (match deE acc with
             | .ok m => .api status m
             | .error _ => .decode .jsonError))))) := by
  refine ⟨fun e rest => rfl, fun status acc e rest => rfl, ?_, ?_⟩
  · intro acc rest
    cases h : deT acc <;> simp [futureStatePoll, bodyPoll, h]
  · intro status acc rest hne
    cases h : deE acc <;> simp [futureStatePoll, bodyPoll, hne, h]

/-- Witness for C6: the non-success clause applied at status 400 with a body
whose error payload deserializes (via `deNat`) to the value 7. -/
theorem b2Future_resolution_witness :
    futureStatePoll (τ := Nat) deNat deNat
        (FutState.collecting 400 [BodyEvt.eof] [55])
      = (FutState.done, some (.ready (.error (.api 400 7)))) :=
  (b2Future_resolution deNat deNat).2.2.2 400 [55] [] (by decide)

/-! ## Single-flight authentication cache

Model of `AuthSource` / `AuthInner` / `AuthTask`
(src/source/auth_source.rs). Credentials (`B2Authorization`, compared with
`PartialEq`) are modelled as natural numbers, waiters (the oneshot senders in
the `notify` queue) by identifiers. The shared-state operations that the code
performs while holding the CAS win, and the body of `AuthTask::finish`, are
modelled as atomic transitions; this is faithful for the properties below
because only the CAS on `reauth_lock` decides who spawns, and `finish` is
executed by the unique leader task. -/

/-- Result delivered to waiters of one refresh round: a credential, a refresh
failure, or the synthesized abort error made in `AuthTask`'s `Drop`
implementation. -/
inductive AuthRes where
  | ok (cred : Nat)
  | apiFail
  | aborted
deriving Repr, DecidableEq

/-- State of the cache: `reauth_lock` (the leader flag), the `ArcCell`
holding `AuthState` (`some cred` = `ActiveAuth`), the `notify` waiter queue,
the number of spawned-but-unfinished `AuthTask`s, and the log of
notifications sent to waiters. -/
structure AuthSt where
  lock : Bool
  active : Option Nat
  queue : List Nat
  running : Nat
  sent : List (Nat × AuthRes)
deriving Repr, DecidableEq

/-- The cache as constructed by `AuthInner::new`. -/
def AuthSt.init : AuthSt :=
  { lock := false, active := none, queue := [], running := 0, sent := [] }

/-- `AuthInner::start_reauth`: a compare-and-swap on `reauth_lock`; the winner
clears the active credential and spawns one `AuthTask`; a loser does
nothing. -/
def startReauth (s : AuthSt) : AuthSt :=
  if s.lock then s
  else { s with lock := true, active := none, running := s.running + 1 }

/-- `AuthInner::reauth`: `start_reauth` followed by enqueueing a oneshot
waiter on the `notify` queue. -/
def reauthEnqueue (wid : Nat) (s : AuthSt) : AuthSt :=
  let s1 := startReauth s
  { s1 with queue := s1.queue ++ [wid] }

/-- `AuthTask::finish`: store the round's outcome in the cache state
(`set_state`), release `reauth_lock`, and drain the waiter queue sending every
waiter a clone of the same result. The finished task is no longer running. -/
def finishTask (res : AuthRes) (s : AuthSt) : AuthSt :=
  { s with
    active := match res with | .ok c => some c | _ => none,
    lock := false,
    queue := [],
    running := s.running - 1,
    sent := s.sent ++ s.queue.map (fun w => (w, res)) }

/-- Events of the cache's environment: the caller-facing operations of
`AuthSource` plus completion/drop of the leader task. -/
inductive AuthEvt where
  /-- First poll of `AuthSourceFuture` for caller `wid`
  (`AuthSourceFutureState::NotRequested`): return the active credential if
  there is one, otherwise `AuthInner::reauth`. -/
  | requestAuth (wid : Nat)
  /-- `AuthSource::reauthenticate` (`mark_expired`) reporting credential
  `cred` as expired. -/
  | markExpired (cred : Nat)
  /-- `AuthSource::provide_auth`: unconditionally install a credential. -/
  | provideAuth (cred : Nat)
  /-- The leader task's refresh future completes with a credential and the
  task runs `finish(Ok(auth))`. -/
  | finishOk (cred : Nat)
  /-- The leader task's refresh future fails and the task runs
  `finish(Err(..))`. -/
  | finishErr
  /-- The executor drops the leader task before completion; `Drop` runs
  `finish(Err(aborted))`. -/
  | dropTask
deriving Repr, DecidableEq

/-- One transition of the cache model. Task-completion events fire only while
a task is running (only a spawned task can finish or be dropped). -/
def authStep (s : AuthSt) : AuthEvt → AuthSt
  | .requestAuth wid =>
    match s.active with
    | some _ => s
    | none => reauthEnqueue wid s
  | .markExpired cred =>
    match s.active with
    | some a => if a ≠ cred then s else startReauth s
    | none => startReauth s
  | .provideAuth cred => { s with active := some cred }
  | .finishOk cred => if s.running = 0 then s else finishTask (.ok cred) s
  | .finishErr => if s.running = 0 then s else finishTask .apiFail s
  | .dropTask => if s.running = 0 then s else finishTask .aborted s

/-- Run the cache model from `AuthSt.init` over a list of events. -/
def authRun (evts : List AuthEvt) : AuthSt :=
  evts.foldl authStep AuthSt.init

theorem authStep_requestAuth_active (s : AuthSt) (a w : Nat)
    (h : s.active = some a) : authStep s (.requestAuth w) = s := by
  simp [authStep, h]

theorem authStep_requestAuth_none (s : AuthSt) (w : Nat)
    (h : s.active = none) : authStep s (.requestAuth w) = reauthEnqueue w s := by
  simp [authStep, h]

theorem authStep_markExpired_other (s : AuthSt) (a cred : Nat)
    (h : s.active = some a) (hne : a ≠ cred) :
    authStep s (.markExpired cred) = s := by
  simp [authStep, h, hne]

theorem authStep_markExpired_current (s : AuthSt) (a : Nat)
    (h : s.active = some a) :
    authStep s (.markExpired a) = startReauth s := by
  simp [authStep, h]

theorem authStep_markExpired_none (s : AuthSt) (cred : Nat)
    (h : s.active = none) :
    authStep s (.markExpired cred) = startReauth s := by
  simp [authStep, h]

theorem authStep_provideAuth (s : AuthSt) (cred : Nat) :
    authStep s (.provideAuth cred) = { s with active := some cred } := rfl

theorem authStep_finish_running (s : AuthSt) (e : AuthEvt)
    (hr : s.running ≠ 0)
    (he : e = .dropTask ∨ e = .finishErr ∨ ∃ c, e = .finishOk c) :
    (authStep s e).running = s.running - 1 ∧ (authStep s e).lock = false := by
  rcases he with rfl | rfl | ⟨c, rfl⟩ <;>
    simp [authStep, hr, finishTask]

theorem startReauth_running (s : AuthSt) :
    (startReauth s).running = (if s.lock then s.running else s.running + 1) ∧
      (startReauth s).lock = true ∨ startReauth s = s ∧ s.lock = true := by
  unfold startReauth
  by_cases hl : s.lock
  · exact Or.inr ⟨by rw [if_pos hl], hl⟩
  · exact Or.inl ⟨by rw [if_neg hl, if_neg hl], by rw [if_neg hl]⟩

theorem authStep_lock_running (s : AuthSt) (e : AuthEvt)
    (h : s.running = (if s.lock then 1 else 0)) :
    (authStep s e).running = (if (authStep s e).lock then 1 else 0) := by
  have hstart : (startReauth s).running
      = (if (startReauth s).lock then 1 else 0) := by
    unfold startReauth
    by_cases hl : s.lock
    · simpa [hl] using h
    · simp [hl] at h
      simp [hl, h]
  cases e with
  | requestAuth wid =>
    cases ha : s.active with
    | some a => rw [authStep_requestAuth_active s a wid ha]; exact h
    | none =>
      rw [authStep_requestAuth_none s wid ha]
      unfold reauthEnqueue
      simpa using hstart
  | markExpired cred =>
    cases ha : s.active with
    | some a =>
      by_cases hc : a = cred
      · subst hc
        rw [authStep_markExpired_current s a ha]
        exact hstart
      · rw [authStep_markExpired_other s a cred ha hc]
        exact h
    | none =>
      rw [authStep_markExpired_none s cred ha]
      exact hstart
  | provideAuth cred => exact h
  | finishOk cred =>
    by_cases hr : s.running = 0
    · simpa [authStep, hr] using h
    · obtain ⟨h1, h2⟩ := authStep_finish_running s (.finishOk cred) hr
        (Or.inr (Or.inr ⟨cred, rfl⟩))
      rw [h1, h2]
      have : s.running = 1 := by
        by_cases hl : s.lock <;> simp [hl] at h <;> omega
      simp [this]
  | finishErr =>
    by_cases hr : s.running = 0
    · simpa [authStep, hr] using h
    · obtain ⟨h1, h2⟩ := authStep_finish_running s .finishErr hr
        (Or.inr (Or.inl rfl))
      rw [h1, h2]
      have : s.running = 1 := by
        by_cases hl : s.lock <;> simp [hl] at h <;> omega
      simp [this]
  | dropTask =>
    by_cases hr : s.running = 0
    · simpa [authStep, hr] using h
    · obtain ⟨h1, h2⟩ := authStep_finish_running s .dropTask hr (Or.inl rfl)
      rw [h1, h2]
      have : s.running = 1 := by
        by_cases hl : s.lock <;> simp [hl] at h <;> omega
      simp [this]

theorem authRun_lock_running (evts : List AuthEvt) :
    (authRun evts).running = (if (authRun evts).lock then 1 else 0) := by
  suffices h : ∀ (l : List AuthEvt) (s : AuthSt),
      s.running = (if s.lock then 1 else 0) →
      (l.foldl authStep s).running
        = (if (l.foldl authStep s).lock then 1 else 0) by
    exact h evts AuthSt.init rfl
  intro l
  induction l with
  | nil => intro s hs; exact hs
  | cons e t ih =>
    intro s hs
    exact ih (authStep s e) (authStep_lock_running s e hs)

/-- Claim C2: at every reachable state of the authentication cache there is at
most one spawned-but-unfinished refresh task; the number of such tasks equals
one exactly when the leader flag `reauth_lock` is held, a task is spawned by
`start_reauth` only when the flag changes from false to true, and
`request_authorization` or `mark_expired` calls arriving while the flag is
held spawn no additional refresh. -/
theorem authCache_single_flight :
    (∀ evts : List AuthEvt, (authRun evts).running ≤ 1) ∧
    (∀ evts : List AuthEvt,
      (authRun evts).running = (if (authRun evts).lock then 1 else 0)) ∧
    (∀ (s : AuthSt) (wid : Nat), s.lock = true →
      (authStep s (.requestAuth wid)).running = s.running) ∧
    (∀ (s : AuthSt) (cred : Nat), s.lock = true →
      (authStep s (.markExpired cred)).running = s.running) := by
  refine ⟨?_, authRun_lock_running, ?_, ?_⟩
  · intro evts
    have h := authRun_lock_running evts
    by_cases hl : (authRun evts).lock <;> simp [hl] at h <;> omega
  · intro s wid hl
    cases ha : s.active with
    | some a => rw [authStep_requestAuth_active s a wid ha]
    | none =>
      rw [authStep_requestAuth_none s wid ha]
      unfold reauthEnqueue startReauth
      simp [hl]
  · intro s cred hl
    cases ha : s.active with
    | some a =>
      by_cases hc : a = cred
      · subst hc
        rw [authStep_markExpired_current s a ha]
        unfold startReauth
        simp [hl]
      · rw [authStep_markExpired_other s a cred ha hc]
    | none =>
      rw [authStep_markExpired_none s cred ha]
      unfold startReauth
      simp [hl]

/-- Witness for C2: in a state holding the leader flag with one task running,
a `request_authorization` and a `mark_expired` call spawn nothing. -/
theorem authCache_single_flight_witness :
    (authStep (authRun [AuthEvt.requestAuth 0]) (.requestAuth 1)).running
        = (authRun [AuthEvt.requestAuth 0]).running ∧
      (authStep (authRun [AuthEvt.requestAuth 0]) (.markExpired 5)).running
        = (authRun [AuthEvt.requestAuth 0]).running :=
  ⟨(authCache_single_flight).2.2.1 (authRun [AuthEvt.requestAuth 0]) 1 (by decide),
   (authCache_single_flight).2.2.2 (authRun [AuthEvt.requestAuth 0]) 5 (by decide)⟩

/-- Claim C5: if the leader task is dropped before its refresh future
completes (a `dropTask` event while a task is running), the `Drop` finalizer
runs `finish(Err(aborted))`: the cache state is updated (no active
credential), the leader flag is released, and every waiter queued before the
drop is sent the same synthesized aborted error; the queue is left empty, so
no queued waiter misses its notification. -/
theorem authCache_dropped_leader_notifies_waiters (s : AuthSt)
    (h : 0 < s.running) :
    (authStep s .dropTask).active = none ∧
      (authStep s .dropTask).lock = false ∧
      (authStep s .dropTask).queue = [] ∧
      (authStep s .dropTask).sent
        = s.sent ++ s.queue.map (fun w => (w, AuthRes.aborted)) := by
  unfold authStep finishTask
  have hr : ¬ s.running = 0 := by omega
  simp [hr]

/-- Witness for C5: dropping the leader task spawned by one
`request_authorization` call notifies the queued waiter 0 with the aborted
error. -/
theorem authCache_dropped_leader_notifies_waiters_witness :
    0 < (authRun [AuthEvt.requestAuth 0]).running ∧
      (authStep (authRun [AuthEvt.requestAuth 0]) .dropTask).sent
        = (authRun [AuthEvt.requestAuth 0]).sent ++
            (authRun [AuthEvt.requestAuth 0]).queue.map
              (fun w => (w, AuthRes.aborted)) :=
  ⟨by decide,
   (authCache_dropped_leader_notifies_waiters
     (authRun [AuthEvt.requestAuth 0]) (by decide)).2.2.2⟩

/-- Counterexample to claim C7: in the reachable state produced by one
`request_authorization` call (which spawns a refresh and holds the leader
flag) followed by `provide_auth(5)`, the credential 5 is the currently active
one, yet `mark_expired(5)` leaves it active (the clear happens only inside the
CAS-win branch of `start_reauth`, and the CAS fails while the flag is held)
and spawns nothing. The claim asserts the active credential is cleared. -/
theorem authCache_markExpired_claim_counterexample :
    (authRun [AuthEvt.requestAuth 0, AuthEvt.provideAuth 5]).active = some 5 ∧
      (authRun [AuthEvt.requestAuth 0, AuthEvt.provideAuth 5]).lock = true ∧
      (authStep (authRun [AuthEvt.requestAuth 0, AuthEvt.provideAuth 5])
          (.markExpired 5)).active = some 5 ∧
      (authStep (authRun [AuthEvt.requestAuth 0, AuthEvt.provideAuth 5])
          (.markExpired 5)).running
        = (authRun [AuthEvt.requestAuth 0, AuthEvt.provideAuth 5]).running := by
  decide

/-- Claim C7 as amended: `mark_expired` with a credential different from the
currently active one is a no-op (no clear, no refresh). `mark_expired` with
the currently active credential clears the credential and spawns exactly one
background refresh when the leader flag is free; when a refresh is already in
flight (flag held) it is a no-op that joins the in-flight round. The caller is
never blocked (the refresh runs as a spawned background task). -/
theorem authCache_markExpired_behavior :
    (∀ (s : AuthSt) (a cred : Nat), s.active = some a → a ≠ cred →
      authStep s (.markExpired cred) = s) ∧
    (∀ (s : AuthSt) (a : Nat), s.active = some a → s.lock = false →
      authStep s (.markExpired a)
        = { s with lock := true, active := none,
                   running := s.running + 1 }) ∧
    (∀ (s : AuthSt) (a : Nat), s.active = some a → s.lock = true →
      authStep s (.markExpired a) = s) := by
  refine ⟨fun s a cred ha hne => authStep_markExpired_other s a cred ha hne,
    ?_, ?_⟩
  · intro s a ha hl
    rw [authStep_markExpired_current s a ha]
    unfold startReauth
    rw [hl]
    rfl
  · intro s a ha hl
    rw [authStep_markExpired_current s a ha]
    unfold startReauth
    rw [hl]
    rfl

/-- Witness for the amended C7: concrete states with credential 3 active —
a stale report (credential 4) is a no-op; a current report (credential 3)
clears and spawns when the flag is free, and is a no-op when it is held. -/
theorem authCache_markExpired_behavior_witness :
    authStep
        { lock := false, active := some 3, queue := [], running := 0,
          sent := [] } (.markExpired 4)
      = { lock := false, active := some 3, queue := [], running := 0,
          sent := [] } ∧
    authStep
        { lock := false, active := some 3, queue := [], running := 0,
          sent := [] } (.markExpired 3)
      = { lock := true, active := none, queue := [], running := 1,
          sent := [] } ∧
    authStep
        { lock := true, active := some 3, queue := [], running := 1,
          sent := [] } (.markExpired 3)
      = { lock := true, active := some 3, queue := [], running := 1,
          sent := [] } :=
  ⟨authCache_markExpired_behavior.1 _ 3 4 rfl (by decide),
   authCache_markExpired_behavior.2.1 _ 3 rfl rfl,
   authCache_markExpired_behavior.2.2 _ 3 rfl rfl⟩

/-! ## Token-bucket throttle

The plain variant `ThrottledStream` (src/throttle/mod.rs) and the shared/fair
variant (src/throttle/async.rs). Instants and durations are nanosecond counts;
the wrapped stream is scripted with `BodyEvt` events; the tokio timer is an
oracle (`TimerEvt`) saying what `Delay::poll` returns at this call. -/

/-- Largest `u64` value, for the saturating arithmetic the source uses. -/
def U64MAX : Nat := 18446744073709551615

/-- `u64::saturating_add`. -/
def satAdd64 (a b : Nat) : Nat := min (a + b) U64MAX

/-- `u64::saturating_mul`. -/
def satMul64 (a b : Nat) : Nat := min (a * b) U64MAX

/-- `saturating_u64_to_usize` (src/throttle/mod.rs lines 165-172): on the
64-bit targets modelled here `usize` and `u64` coincide, so it is the
identity. -/
def satU64toUsize (i : Nat) : Nat := i

/-- State of the plain `ThrottledStream<S>` (src/throttle/mod.rs lines
87-97): available tokens, last refill instant, the retained unsent chunk, the
stored timer deadline, bucket size and rate. -/
structure Thr where
  tokens : Nat
  lastRead : Nat
  next : Option (List Byte)
  timeout : Option Nat
  bucketSize : Nat
  rate : Nat
deriving Repr, DecidableEq

/-- `ThrottledStream::new` (panics when `bucket_size < 1024`, modelled as
`none`); the bucket starts full. -/
def Thr.new (bucketSize rate now : Nat) : Option Thr :=
  if bucketSize < 1024 then none
  else some { tokens := bucketSize, lastRead := now, next := none,
              timeout := none, bucketSize := bucketSize, rate := rate }

/-- `ThrottledStream::fill_tokens` (src/throttle/mod.rs lines 138-150):
refill by elapsed-time times rate with saturating arithmetic, cap at the
bucket size, and remember the refill instant. -/
def Thr.fillTokens (s : Thr) (now : Nat) : Thr :=
  let dur := now - s.lastRead
  let nanos := satAdd64 (satMul64 (dur / 1000000000) 1000000000)
    (dur % 1000000000)
  let tokensX := satMul64 nanos s.rate
  let tokens := tokensX / 1000000000
  { s with tokens := min s.bucketSize (satAdd64 s.tokens (satU64toUsize tokens)),
           lastRead := now }

/-- `ThrottledStream::cut_chunk` (src/throttle/mod.rs lines 151-162): either
pass the chunk through whole (consuming its length in tokens) or split it at
the token boundary, returning the prefix to send and the suffix to retain. -/
def Thr.cutChunk (s : Thr) (bytes : List Byte) :
    Thr × List Byte × Option (List Byte) :=
  if s.tokens < bytes.length then
    ({ s with tokens := 0 }, bytes.take s.tokens, some (bytes.drop s.tokens))
  else
    ({ s with tokens := s.tokens - bytes.length }, bytes, none)

/-- What `Delay::poll` returns at this call: completed, pending, the
at-capacity timer error (notify and pend), or the shutdown/unknown timer
errors (both panic). -/
inductive TimerEvt where
  | ready
  | notReady
  | atCapacity
  | shutdown
deriving Repr, DecidableEq

/-- One poll outcome of a throttled stream. -/
inductive ThrOut where
  | notReady
  | item (bs : List Byte)
  | eos
  | failure (e : Nat)
  | panicked
deriving Repr, DecidableEq

/-- The final emit of `ThrottledStream::poll` (src/throttle/mod.rs lines
236-239): split the chunk, retain the suffix in `self.next`, clear the stored
timer, and hand the prefix to the caller. -/
def Thr.emit (s : Thr) (next : List Byte) : Thr × ThrOut :=
  let r := s.cutChunk next
  ({ r.1 with next := r.2.2, timeout := none }, .item r.2.1)

/-- The tail of the plain `ThrottledStream::poll` once a chunk `next` is in
hand and `self.next` has been taken (src/throttle/mod.rs lines 190-240):
pass through when the rate is zero; refill; if the tokens are short and below
the 1024 threshold poll a timer (storing the chunk back when pending);
otherwise split the chunk, retain the suffix and emit the prefix. -/
def thrCore (s : Thr) (next : List Byte) (now now2 : Nat) (tm : TimerEvt) :
    Thr × ThrOut :=
  if s.rate = 0 then (s, .item next)
  else
    let s1 := s.fillTokens now
    if s1.tokens < next.length ∧ s1.tokens < 1024 then
      let needed := min s1.bucketSize (next.length - s1.tokens)
      let millis := 1 + (satMul64 needed 1000 - 1) / s1.rate
      let deadline := s1.lastRead + millis * 1000000
      match tm with
      | .ready => Thr.emit (Thr.fillTokens { s1 with timeout := none } now2) next
      | .notReady =>
        ({ s1 with timeout := some deadline, next := some next }, .notReady)
      | .atCapacity => ({ s1 with next := some next }, .notReady)
      | .shutdown => ({ s1 with next := some next }, .panicked)
    else Thr.emit s1 next

/-- The plain `ThrottledStream::poll` (src/throttle/mod.rs lines 180-240):
take the retained chunk if any, otherwise poll the wrapped stream
(propagating its error, pending and end-of-stream), then run the token-bucket
core. Returns the new state, the remaining script of the wrapped stream, and
the poll outcome. -/
def thrPoll (s : Thr) (inner : List BodyEvt) (now now2 : Nat) (tm : TimerEvt) :
    Thr × List BodyEvt × ThrOut :=
  match s.next with
  | some b =>
    let (s2, out) := thrCore { s with next := none } b now now2 tm
    (s2, inner, out)
  | none =>
    match bodyPoll inner with
    | (.fail e, rest) => (s, rest, .failure e)
    | (.notReady, rest) => (s, rest, .notReady)
    | (.eof, rest) => (s, rest, .eos)
    | (.chunk b, rest) =>
      let (s2, out) := thrCore s b now now2 tm
      (s2, rest, out)

/-- Timing inputs of one poll: the instants observed by the two possible
`fill_tokens` calls and the timer oracle. -/
structure ThrIn where
  now : Nat
  now2 : Nat
  tm : TimerEvt
deriving Repr, DecidableEq

/-- The bytes of an `item` outcome. -/
def ThrOut.bytes : ThrOut → List Byte
  | .item bs => bs
  | _ => []

/-- The chunk the wrapped stream hands over at this poll (empty when the
retained chunk is used or no chunk event is at the head). -/
def consumedOf (s : Thr) (inner : List BodyEvt) : List Byte :=
  match s.next with
  | some _ => []
  | none =>
    match inner with
    | BodyEvt.chunk b :: _ => b
    | _ => []

/-- Drive the plain throttled stream over a list of poll inputs, collecting
the emitted chunks and the chunks consumed from the wrapped stream. -/
def thrRun : Thr → List BodyEvt → List ThrIn →
    Thr × List (List Byte) × List (List Byte)
  | s, _, [] => (s, [], [])
  | s, inner, e :: t =>
    let c := consumedOf s inner
    let (s1, inner1, out) := thrPoll s inner e.now e.now2 e.tm
    let (s2, outs, cons) := thrRun s1 inner1 t
    (s2, out.bytes :: outs, c :: cons)

theorem emit_conserves (s : Thr) (next : List Byte) :
    (Thr.emit s next).2.bytes ++ ((Thr.emit s next).1.next.getD []) = next := by
  unfold Thr.emit Thr.cutChunk
  split
  · simp [ThrOut.bytes]
  · simp [ThrOut.bytes]

theorem thrCore_conserves (s : Thr) (next : List Byte) (now now2 : Nat)
    (tm : TimerEvt) (hn : s.next = none) :
    (thrCore s next now now2 tm).2.bytes ++
        ((thrCore s next now now2 tm).1.next.getD [])
      = next := by
  unfold thrCore
  by_cases hr : s.rate = 0
  · simp [hr, ThrOut.bytes, hn]
  · simp only [hr, if_false]
    by_cases hc : (s.fillTokens now).tokens < next.length ∧
        (s.fillTokens now).tokens < 1024
    · simp only [hc, if_true]
      cases tm
      · exact emit_conserves _ next
      · simp [ThrOut.bytes]
      · simp [ThrOut.bytes]
      · simp [ThrOut.bytes]
    · simp only [hc, if_false]
      exact emit_conserves _ next

theorem thrPoll_conserves (s : Thr) (inner : List BodyEvt) (now now2 : Nat)
    (tm : TimerEvt) :
    (thrPoll s inner now now2 tm).2.2.bytes ++
        ((thrPoll s inner now now2 tm).1.next.getD [])
      = (s.next.getD []) ++ consumedOf s inner := by
  unfold thrPoll consumedOf
  cases hn : s.next with
  | some b =>
    simp only []
    rw [thrCore_conserves { s with next := none } b now now2 tm rfl]
    simp
  | none =>
    rcases inner with _ | ⟨evt, rest⟩
    · simp [bodyPoll, ThrOut.bytes, hn]
    · cases evt with
      | chunk b =>
        simp only [bodyPoll]
        rw [thrCore_conserves s b now now2 tm hn]
        simp
      | notReady => simp [bodyPoll, ThrOut.bytes, hn]
      | eof => simp [bodyPoll, ThrOut.bytes, hn]
      | fail e => simp [bodyPoll, ThrOut.bytes, hn]

theorem thrRun_conserves :
    ∀ (ins : List ThrIn) (s : Thr) (inner : List BodyEvt),
      (thrRun s inner ins).2.1.flatten ++
          ((thrRun s inner ins).1.next.getD [])
        = (s.next.getD []) ++ (thrRun s inner ins).2.2.flatten := by
  intro ins
  induction ins with
  | nil =>
    intro s inner
    simp [thrRun]
  | cons e t ih =>
    intro s inner
    rcases hp : thrPoll s inner e.now e.now2 e.tm with ⟨s1, inner1, out⟩
    have hcons := thrPoll_conserves s inner e.now e.now2 e.tm
    rw [hp] at hcons
    dsimp only at hcons
    show ((thrRun s inner (e :: t)).2.1).flatten ++ _ = _
    unfold thrRun
    rw [hp]
    dsimp only
    rw [List.flatten_cons, List.flatten_cons, List.append_assoc, ih s1 inner1]
    rw [← List.append_assoc, hcons, List.append_assoc]

/-- State of the shared/fair `ThrottledStream<S>` (src/throttle/async.rs
lines 152-165): as the plain variant plus the value of the shared
`stream_count` atomic and this stream's `registered` flag. The counter is
shared between sibling streams; the scenarios below involve a single stream,
whose registrations are the only updates. -/
structure ThrS where
  tokens : Nat
  lastRead : Nat
  next : Option (List Byte)
  timeout : Option Nat
  count : Nat
  registered : Bool
  bucketSize : Nat
  rate : Nat
deriving Repr, DecidableEq

/-- `Throttle::new` followed by `throttle_stream` (src/throttle/async.rs
lines 47-94): panics when the bucket size is below 1024 (`none`); the new
stream starts unregistered with the shared counter at zero and a full
bucket. -/
def throttleStreamNew (rate bucketSize now : Nat) : Option ThrS :=
  if bucketSize < 1024 then none
  else some { tokens := bucketSize, lastRead := now, next := none,
              timeout := none, count := 0, registered := false,
              bucketSize := bucketSize, rate := rate }

/-- `ThrottledStream::register` (src/throttle/async.rs lines 213-219). -/
def ThrS.register (s : ThrS) : ThrS :=
  if s.registered then s
  else { s with count := s.count + 1, registered := true }

/-- `ThrottledStream::unregister`, also run by `Drop`
(src/throttle/async.rs lines 222-235). -/
def ThrS.unregister (s : ThrS) : ThrS :=
  if s.registered then { s with count := s.count - 1, registered := false }
  else s

/-- The shared variant's `fill_tokens` (src/throttle/async.rs lines 186-197):
like the plain one but the refill is divided by the current value of the
shared `stream_count`. A `usize` division by zero panics in Rust, modelled as
`none`. -/
def ThrS.fillTokens (s : ThrS) (now : Nat) : Option ThrS :=
  if s.count = 0 then none
  else
    let dur := now - s.lastRead
    let nanos := satAdd64 (satMul64 (dur / 1000000000) 1000000000)
      (dur % 1000000000)
    let tokensX := satMul64 nanos s.rate
    let tokensAll := tokensX / 1000000000
    let tokens := satU64toUsize tokensAll / s.count
    some { s with tokens := min s.bucketSize (satAdd64 s.tokens tokens),
                  lastRead := now }

/-- The shared variant's `cut_chunk` (src/throttle/async.rs lines 199-208). -/
def ThrS.cutChunk (s : ThrS) (bytes : List Byte) :
    ThrS × List Byte × Option (List Byte) :=
  if s.tokens < bytes.length then
    ({ s with tokens := 0 }, bytes.take s.tokens, some (bytes.drop s.tokens))
  else
    ({ s with tokens := s.tokens - bytes.length }, bytes, none)

/-- The final emit of the shared `poll` (src/throttle/async.rs lines
297-301): split the chunk, retain the suffix, clear the timer, call
`register`, and hand the prefix over. -/
def ThrS.emit (s : ThrS) (next : List Byte) : ThrS × ThrOut :=
  let r := s.cutChunk next
  (ThrS.register { r.1 with next := r.2.2, timeout := none }, .item r.2.1)

/-- The tail of the shared `poll` once a chunk `next` is in hand
(src/throttle/async.rs lines 253-301). Differences from the plain variant,
faithful to the source: `fill_tokens` can panic (zero divisor); in the
timer-pending and timer-at-capacity arms the chunk in hand is NOT stored back
into `self.next` (the source has no `self.next = Some(next)` there, unlike
src/throttle/mod.rs lines 220 and 224), so the chunk is dropped. In the
rate-zero arm the source returns the undeclared name `bytes`; the chunk in
hand, `next`, is the only sensible intent and is used here. -/
def thrSCore (s : ThrS) (next : List Byte) (now now2 : Nat) (tm : TimerEvt) :
    ThrS × ThrOut :=
  if s.rate = 0 then (s, .item next)
  else
    match s.fillTokens now with
    | none => (s, .panicked)
    | some s1 =>
      if s1.tokens < next.length ∧ s1.tokens < 1024 then
        let needed := min s1.bucketSize (next.length - s1.tokens)
        let millis := 1 + (satMul64 needed 1000 - 1) / s1.rate
        let deadline := s1.lastRead + millis * 1000000
        match tm with
        | .ready =>
          match ThrS.fillTokens { s1 with timeout := none } now2 with
          | none => ({ s1 with timeout := none }, .panicked)
          | some s2 => ThrS.emit s2 next
        | .notReady => ({ s1 with timeout := some deadline }, .notReady)
        | .atCapacity => (s1, .notReady)
        | .shutdown => (s1, .panicked)
      else ThrS.emit s1 next

/-- The shared `ThrottledStream::poll` (src/throttle/async.rs lines
243-302). -/
def thrSPoll (s : ThrS) (inner : List BodyEvt) (now now2 : Nat)
    (tm : TimerEvt) : ThrS × List BodyEvt × ThrOut :=
  match s.next with
  | some b =>
    let (s2, out) := thrSCore { s with next := none } b now now2 tm
    (s2, inner, out)
  | none =>
    match bodyPoll inner with
    | (.fail e, rest) => (s, rest, .failure e)
    | (.notReady, rest) => (s, rest, .notReady)
    | (.eof, rest) => (s, rest, .eos)
    | (.chunk b, rest) =>
      let (s2, out) := thrSCore s b now now2 tm
      (s2, rest, out)

/-- The chunk the wrapped stream hands to the shared throttle at this poll. -/
def consumedOfS (s : ThrS) (inner : List BodyEvt) : List Byte :=
  match s.next with
  | some _ => []
  | none =>
    match inner with
    | BodyEvt.chunk b :: _ => b
    | _ => []

/-- Drive the shared throttled stream over a list of poll inputs, collecting
the emitted chunks and the chunks consumed from the wrapped stream. -/
def thrSRun : ThrS → List BodyEvt → List ThrIn →
    ThrS × List (List Byte) × List (List Byte)
  | s, _, [] => (s, [], [])
  | s, inner, e :: t =>
    let c := consumedOfS s inner
    let (s1, inner1, out) := thrSPoll s inner e.now e.now2 e.tm
    let (s2, outs, cons) := thrSRun s1 inner1 t
    (s2, out.bytes :: outs, c :: cons)

/-- A shared throttled stream in the state reached by creating it with rate
1000 and bucket size 1024 and calling the public `register` method (which the
first poll would otherwise panic on, see C4): registered, shared count 1,
full bucket. -/
def thrSWitness : ThrS :=
  { tokens := 1024, lastRead := 0, next := none, timeout := none,
    count := 1, registered := true, bucketSize := 1024, rate := 1000 }

set_option maxRecDepth 40000 in
/-- Claim C3, settled against the code: the PLAIN throttled stream conserves
bytes — over any poll sequence from any state, the concatenation of emitted
chunks followed by the retained suffix equals the initially retained chunk
followed by the concatenation of the chunks consumed from the wrapped source.
The SHARED variant violates exactly this law: polled at `thrSWitness` on a
source producing a 1024-byte chunk and then the chunk `[8,8,8]`, with the
timer pending at the second poll, the second chunk is dropped (the source
stores nothing back into `self.next` on the wait path), so the same
conservation equation fails. -/
theorem throttle_conserves_bytes_plain_but_not_shared :
    (∀ (ins : List ThrIn) (s : Thr) (inner : List BodyEvt),
      (thrRun s inner ins).2.1.flatten ++
          ((thrRun s inner ins).1.next.getD [])
        = (s.next.getD []) ++ (thrRun s inner ins).2.2.flatten) ∧
    ((thrSRun thrSWitness
          [BodyEvt.chunk (List.replicate 1024 7), BodyEvt.chunk [8, 8, 8]]
          [⟨0, 0, .notReady⟩, ⟨0, 0, .notReady⟩, ⟨0, 0, .notReady⟩]).2.1.flatten
          ++ ((thrSRun thrSWitness
            [BodyEvt.chunk (List.replicate 1024 7), BodyEvt.chunk [8, 8, 8]]
            [⟨0, 0, .notReady⟩, ⟨0, 0, .notReady⟩,
              ⟨0, 0, .notReady⟩]).1.next.getD [])
        ≠ (thrSWitness.next.getD []) ++
            (thrSRun thrSWitness
              [BodyEvt.chunk (List.replicate 1024 7), BodyEvt.chunk [8, 8, 8]]
              [⟨0, 0, .notReady⟩, ⟨0, 0, .notReady⟩,
                ⟨0, 0, .notReady⟩]).2.2.flatten) := by
  refine ⟨thrRun_conserves, ?_⟩
  decide

/-- Claim C4, settled against the code: on the FIRST poll of a freshly
created shared throttled stream (unregistered, shared count 0) with a nonzero
rate and a chunk available, `fill_tokens` runs BEFORE `register` (which the
source only calls at line 300, after the emit path is reached), so the refill
divides by the not-yet-incremented count 0 and the poll panics, contradicting
the claim that the count is incremented before any refill division. -/
theorem sharedThrottle_first_poll_divides_by_zero :
    throttleStreamNew 1000 1024 0
        = some { tokens := 1024, lastRead := 0, next := none, timeout := none,
                 count := 0, registered := false, bucketSize := 1024,
                 rate := 1000 } ∧
      ThrS.fillTokens
          { tokens := 1024, lastRead := 0, next := none, timeout := none,
            count := 0, registered := false, bucketSize := 1024, rate := 1000 }
          0 = none ∧
      ∀ tm : TimerEvt,
        (thrSPoll
            { tokens := 1024, lastRead := 0, next := none, timeout := none,
              count := 0, registered := false, bucketSize := 1024,
              rate := 1000 }
            [BodyEvt.chunk [7, 7, 7]] 0 0 tm).2.2 = .panicked := by
  refine ⟨rfl, rfl, ?_⟩
  intro tm
  rfl

end B2
